import Mathlib

/-!
Verification of the memory-sampling core of the KivyMD memory-monitor app
(`src/main.py`).  The embedding models:

* the snapshot provider (`get_memory_snapshot`, `read_proc_meminfo`,
  `read_proc_status`, `get_memory_info_jnius`), with the process environment
  (jnius availability, `/proc` file contents) passed explicitly;
* the sampler state machine (`start_test`, `stop_test`, `_sample_tick`),
  with clock readings passed as explicit `Nat` instants (the ISO timestamp
  written by the tick is modelled by its capture instant);
* the CSV writer (`save_csv`), with the filesystem outcome passed explicitly.

Python exceptions are modelled by `Option`/`Except`; a `try/except` block
that swallows an exception becomes a total function returning the value the
`except` arm produces.
-/

namespace MemApp

/-! ### Character-list utilities (models of the Python string operations) -/

/-- Model of `line.split(sep, 1)`: split at the first occurrence of `sep`,
`none` when `sep` does not occur (in which case Python's 2-element unpacking
raises `ValueError`). -/
def splitOnce (sep : Char) : List Char → Option (List Char × List Char)
  | [] => none
  | c :: cs =>
    if c = sep then some ([], cs)
    else (splitOnce sep cs).map (fun p => (c :: p.1, p.2))

/-- Model of Python `str.strip()`: drop leading and trailing whitespace. -/
def stripCL (l : List Char) : List Char :=
  ((l.dropWhile Char.isWhitespace).reverse.dropWhile Char.isWhitespace).reverse

/-- Accumulator loop for `wsplitCL`. -/
def wsplitAux : List Char → List Char → List (List Char)
  | [], cur => if cur.isEmpty then [] else [cur.reverse]
  | c :: cs, cur =>
    if c.isWhitespace then
      if cur.isEmpty then wsplitAux cs [] else cur.reverse :: wsplitAux cs []
    else wsplitAux cs (c :: cur)

/-- Model of Python `str.split()` (no argument): split on runs of
whitespace, discarding empty pieces. -/
def wsplitCL (l : List Char) : List (List Char) := wsplitAux l []

/-- Digit-string to number; `none` unless the string is a nonempty run of
decimal digits. -/
def parseNatCL (l : List Char) : Option Nat :=
  if l.isEmpty then none
  else if l.all Char.isDigit then
    some (l.foldl (fun a c => 10 * a + (c.toNat - 48)) 0)
  else none

/-- Model of Python `int(token)` on a whitespace-free token: optional sign
followed by decimal digits. -/
def parsePyInt : List Char → Option Int
  | '-' :: rest => (parseNatCL rest).map (fun n => -(n : Int))
  | '+' :: rest => (parseNatCL rest).map (fun n => (n : Int))
  | l => (parseNatCL l).map (fun n => (n : Int))

/-! ### Snapshot provider -/

/-- The five-field memory record returned by `get_memory_snapshot` (and by
`get_memory_info_jnius` when the privileged API succeeds). -/
structure Snapshot where
  totalMem_kb : Int
  availMem_kb : Int
  lowMemory : Bool
  pss_kb : Int
  private_dirty_kb : Int
deriving Repr, DecidableEq

/-- The process environment the snapshot provider runs in: whether `jnius`
imported, the result of the privileged-API query (`none` models the
`except` arm of `get_memory_info_jnius` or the API returning nothing), and
the line contents of `/proc/meminfo` and `/proc/{pid}/status` (`none` models
`open` raising). -/
structure Env where
  hasJnius : Bool
  jniusInfo : Option Snapshot
  meminfoFile : Option (List String)
  statusFile : Option (List String)

/-- Model of the body of the `for line in f` loop of `read_proc_meminfo`:
`k, v = line.split(':', 1); out[k.strip()] = int(v.strip().split()[0])`.
`none` models any of those raising. -/
def parseMemLine (line : String) : Option (String × Int) :=
  match splitOnce ':' line.data with
  | none => none
  | some (k, v) =>
    match wsplitCL (stripCL v) with
    | [] => none
    | t :: _ => (parsePyInt t).map (fun n => (String.mk (stripCL k), n))

/-- The `for` loop of `read_proc_meminfo` with the surrounding
`try/except: pass`: a line that raises aborts the loop and the dictionary
accumulated so far is returned.  The dictionary is an association list in
most-recent-first order (`List.lookup` finds the latest binding, as a
Python `dict` does). -/
def parseMemAll : List String → List (String × Int) → List (String × Int)
  | [], acc => acc
  | l :: ls, acc =>
    match parseMemLine l with
    | none => acc
    | some (k, v) => parseMemAll ls ((k, v) :: acc)

/-- `read_proc_meminfo`: parse `/proc/meminfo`; a failed `open` yields the
empty dictionary. -/
def read_proc_meminfo (env : Env) : List (String × Int) :=
  match env.meminfoFile with
  | none => []
  | some lines => parseMemAll lines []

/-- The `line.startswith(('VmRSS:', 'VmSize:', 'VmPeak:'))` filter of
`read_proc_status`. -/
def statusLineWanted (l : String) : Bool :=
  List.isPrefixOf "VmRSS:".data l.data || List.isPrefixOf "VmSize:".data l.data
    || List.isPrefixOf "VmPeak:".data l.data

/-- The `for` loop of `read_proc_status` with the surrounding
`try/except: pass`: lines failing the `startswith` filter are skipped;
a matching line that raises aborts the loop. -/
def parseStatusAll : List String → List (String × Int) → List (String × Int)
  | [], acc => acc
  | l :: ls, acc =>
    if statusLineWanted l then
      match parseMemLine l with
      | none => acc
      | some (k, v) => parseStatusAll ls ((k, v) :: acc)
    else parseStatusAll ls acc

/-- `read_proc_status(pid)`: parse `/proc/{pid}/status`; a failed `open`
yields the empty dictionary.  The file for the given pid is carried by the
environment. -/
def read_proc_status (env : Env) (pid : Int) : List (String × Int) :=
  match env.statusFile with
  | none => []
  | some lines => parseStatusAll lines []

/-- `get_memory_info_jnius(pid)`: the privileged-API query; its result
(`None` on any exception) is carried by the environment. -/
def get_memory_info_jnius (env : Env) (pid : Int) : Option Snapshot :=
  env.jniusInfo

/-- `get_memory_snapshot(pid)`: privileged API when `jnius` is available and
its query succeeds, otherwise the `/proc`-parsing fallback with `-1`
sentinels (`False` for the low-memory flag). -/
def get_memory_snapshot (env : Env) (pid : Int) : Snapshot :=
  match (if env.hasJnius then get_memory_info_jnius env pid else none) with
  | some jinfo => jinfo
  | none =>
    let sysinfo := read_proc_meminfo env
    let procinfo := read_proc_status env pid
    { totalMem_kb := (sysinfo.lookup "MemTotal").getD (-1)
      availMem_kb := (sysinfo.lookup "MemAvailable").getD
        ((sysinfo.lookup "MemFree").getD (-1))
      lowMemory := false
      pss_kb := (procinfo.lookup "VmRSS").getD (-1)
      private_dirty_kb := -1 }

/-! ### CSV writer (`save_csv`) -/

/-- One collected sample, as the dict built by `_sample_tick` and written by
`csv.DictWriter`.  The timestamp is the `datetime.utcnow().isoformat()`
string. -/
structure Sample where
  timestamp : String
  pid : Int
  pss_kb : Int
  private_dirty_kb : Int
  totalMem_kb : Int
  availMem_kb : Int
  lowMemory : Bool
deriving Repr, DecidableEq

/-- The `fieldnames` list passed to `csv.DictWriter` in `save_csv`. -/
def fieldnames : List String :=
  ["timestamp", "pid", "pss_kb", "private_dirty_kb", "totalMem_kb",
   "availMem_kb", "lowMemory"]

/-- The decimal digit `d` as a character (`0 ≤ d ≤ 9`). -/
def digitChar (d : Nat) : Char := Char.ofNat (48 + d)

/-- Decimal rendering of a natural number, as Python `str` produces it. -/
def natStr (n : Nat) : String :=
  if n = 0 then "0" else String.mk ((Nat.digits 10 n).reverse.map digitChar)

/-- Decimal rendering of an integer, as Python `str` produces it (so the
sentinel `-1` is written literally as `-1`). -/
def intStr (i : Int) : String :=
  if i < 0 then "-" ++ natStr i.natAbs else natStr i.natAbs

/-- Rendering of a boolean, as Python `str` produces it. -/
def boolStr (b : Bool) : String := if b then "True" else "False"

/-- The seven field values of one CSV data row, in the `fieldnames` order. -/
def sampleFields (s : Sample) : List String :=
  [s.timestamp, intStr s.pid, intStr s.pss_kb, intStr s.private_dirty_kb,
   intStr s.totalMem_kb, intStr s.availMem_kb, boolStr s.lowMemory]

/-- Model of `",".join(fields)`, which is what the `csv` module writes for a
record none of whose fields needs quoting. -/
def commaJoin : List String → String
  | [] => ""
  | [f] => f
  | f :: g :: r => f ++ "," ++ commaJoin (g :: r)

/-- One data row of the CSV file. -/
def csvRow (s : Sample) : String := commaJoin (sampleFields s)

/-- The header row written by `writer.writeheader()`. -/
def csvHeader : String := commaJoin fieldnames

/-- Lines joined with the `csv` module's default `\r\n` terminator (the file
is opened with `newline=''`, so the terminator reaches the file verbatim). -/
def writeLines : List String → String
  | [] => ""
  | l :: ls => l ++ "\r\n" ++ writeLines ls

/-- The full text `save_csv` writes: header row, then one row per sample. -/
def csvText (samples : List Sample) : String :=
  writeLines (csvHeader :: samples.map csvRow)

/-! #### CSV reader

Modelled from the spec: the repository writes CSV but never reads it back;
the spec's round-trip property ("writing N samples then re-parsing the file
yields N rows matching the original fields") presumes a standard CSV
reader.  `parseCsvRows`/`parseCsvSamples` model re-parsing the file: split
into lines (tolerating the `\r\n` terminator), split each line on commas,
check the header, and decode each field. -/

/-- Split a character list at every occurrence of `sep` (the pieces do not
contain `sep`; `n` separators yield `n+1` pieces). -/
def splitCh (sep : Char) : List Char → List (List Char)
  | [] => [[]]
  | c :: cs =>
    if c = sep then [] :: splitCh sep cs
    else
      match splitCh sep cs with
      | [] => [[c]]
      | f :: r => (c :: f) :: r

/-- Drop a trailing carriage return left by splitting `\r\n`-terminated
text on `\n`. -/
def stripCR (l : List Char) : List Char :=
  if l.getLast? = some '\r' then l.dropLast else l

/-- Drop the empty piece a trailing line terminator leaves behind. -/
def stripTrailingEmpty (ls : List (List Char)) : List (List Char) :=
  if ls.getLast? = some ([] : List Char) then ls.dropLast else ls

/-- Modelled from the spec: re-parse the written file into its rows of
field strings. -/
def parseCsvRows (content : String) : List (List String) :=
  (stripTrailingEmpty (splitCh '\n' content.data)).map
    (fun l => (splitCh ',' (stripCR l)).map String.mk)

/-- Modelled from the spec: decode one integer field from its characters
(`-1` stays `-1`). -/
def parseIntCL : List Char → Option Int
  | [] => none
  | c :: cs =>
    if c = '-' then
      match parseNatCL cs with
      | none => none
      | some n => some (-(n : Int))
    else
      match parseNatCL (c :: cs) with
      | none => none
      | some n => some ((n : Int))

/-- Modelled from the spec: decode one integer field (`-1` stays `-1`). -/
def parseIntStr (s : String) : Option Int := parseIntCL s.data

/-- Modelled from the spec: decode one boolean field. -/
def parseBoolStr (s : String) : Option Bool :=
  if s = "True" then some true else if s = "False" then some false else none

/-- Modelled from the spec: decode one data row back into a `Sample`. -/
def parseSampleRow (r : List String) : Option Sample :=
  match r with
  | [ts, pidS, pssS, pdS, totS, avS, lowS] =>
    match parseIntStr pidS, parseIntStr pssS, parseIntStr pdS,
        parseIntStr totS, parseIntStr avS, parseBoolStr lowS with
    | some pidV, some pssV, some pdV, some totV, some avV, some lowV =>
      some { timestamp := ts, pid := pidV, pss_kb := pssV,
             private_dirty_kb := pdV, totalMem_kb := totV,
             availMem_kb := avV, lowMemory := lowV }
    | _, _, _, _, _, _ => none
  | _ => none

/-- Modelled from the spec: decode a list of data rows. -/
def parseRows : List (List String) → Option (List Sample)
  | [] => some []
  | r :: rs =>
    match parseSampleRow r, parseRows rs with
    | some s, some l => some (s :: l)
    | _, _ => none

/-- Modelled from the spec: re-parse a whole CSV file into its samples. -/
def parseCsvSamples (content : String) : Option (List Sample) :=
  match parseCsvRows content with
  | [] => none
  | hdr :: rows => if hdr = fieldnames then parseRows rows else none

/-- Timestamp strings free of the CSV metacharacters (true of every
`isoformat()` string); under this condition the `csv` module writes the
field unquoted, as `commaJoin` does. -/
def tsOk (ts : String) : Prop :=
  (',' ∉ ts.data) ∧ ('\r' ∉ ts.data) ∧ ('\n' ∉ ts.data)

instance (ts : String) : Decidable (tsOk ts) := by
  unfold tsOk; infer_instance

/-! #### `save_csv` at the app level -/

/-- The filesystem environment of one `save_csv` call: the path
`get_save_path()` resolves to, and whether opening/writing it succeeds
(`Except.error` carries the OS error text). -/
structure FsEnv where
  path : String
  writeResult : Except String Unit

/-- The user-visible outcome of a `save_csv` call. -/
inductive SaveResult where
  | noSamples
  | saved (path : String)
  | failed (msg : String)
deriving Repr, DecidableEq

/-- The slice of app state `save_csv` touches: the in-memory sample list
and the footer label text. -/
structure SaveState where
  samples : List Sample
  footer : String
deriving Repr, DecidableEq

/-- `save_csv`: no samples → message only; otherwise attempt the write,
reporting success or catching the exception into the footer text.  The last
component is the file actually written (`none` when nothing was written). -/
def save_csv (st : SaveState) (env : FsEnv) :
    SaveState × SaveResult × Option (String × String) :=
  if st.samples.isEmpty then
    ({ st with footer := "No samples to save." }, .noSamples, none)
  else
    match env.writeResult with
    | .ok _ =>
      ({ st with footer := "Saved to Downloads" }, .saved env.path,
        some (env.path, csvText st.samples))
    | .error e =>
      ({ st with footer := "Error saving CSV: " ++ e },
        .failed ("Error saving CSV: " ++ e), none)

/-! ### Sampler state machine (`start_test`, `stop_test`, `_sample_tick`) -/

/-- One sample as appended by `_sample_tick`, the ISO timestamp modelled by
its capture instant (`isoformat` of UTC instants is order-preserving). -/
structure TickSample where
  time : Nat
  pid : Int
  pss_kb : Int
  private_dirty_kb : Int
  totalMem_kb : Int
  availMem_kb : Int
  lowMemory : Bool
deriving Repr, DecidableEq

/-- The status label: idle / running / stopped / finished. -/
inductive RunStatus where
  | idle
  | running
  | stopped
  | finished
deriving Repr, DecidableEq

/-- The slice of `MemMonitorApp` state the sampler manipulates.
`tickScheduled` models the `Clock.schedule_interval` registration,
`threadsStarted` counts `task_thread.start()` calls, and `csvTriggers`
counts the `Clock.schedule_once(lambda dt: self.save_csv(), 0.5)` calls
issued by `stop_test`. -/
structure AppState where
  sampling : Bool
  samples : List TickSample
  stopEvent : Bool
  startTime : Nat
  pid : Int
  duration : Nat
  tickScheduled : Bool
  threadsStarted : Nat
  status : RunStatus
  csvTriggers : Nat
deriving Repr, DecidableEq

/-- `start_test`: a no-op while sampling; otherwise clear the samples and
the stop event, record the start time, start the load-generator thread and
the periodic tick. -/
def startTest (s : AppState) (now : Nat) : AppState :=
  if s.sampling then s
  else
    { s with
      sampling := true
      samples := []
      stopEvent := false
      status := .running
      startTime := now
      threadsStarted := s.threadsStarted + 1
      tickScheduled := true }

/-- `stop_test(finished)`: a no-op unless sampling; otherwise set the stop
event, unschedule the tick, set the status label, and schedule one
`save_csv` call. -/
def stopTest (s : AppState) (finished : Bool) : AppState :=
  if !s.sampling then s
  else
    { s with
      sampling := false
      stopEvent := true
      tickScheduled := false
      status := if finished then .finished else .stopped
      csvTriggers := s.csvTriggers + 1 }

/-- The sample dict built by `_sample_tick` from a snapshot. -/
def mkTickSample (now : Nat) (pid : Int) (info : Snapshot) : TickSample :=
  { time := now, pid := pid, pss_kb := info.pss_kb,
    private_dirty_kb := info.private_dirty_kb,
    totalMem_kb := info.totalMem_kb, availMem_kb := info.availMem_kb,
    lowMemory := info.lowMemory }

/-- `_sample_tick`: returning `False` while not sampling unschedules the
tick; otherwise append one sample and, when the elapsed time reaches the
configured duration, call `stop_test(finished=True)`. -/
def sampleTick (s : AppState) (now : Nat) (info : Snapshot) : AppState :=
  if !s.sampling then { s with tickScheduled := false }
  else
    let s1 := { s with samples := s.samples ++ [mkTickSample now s.pid info] }
    if s.duration ≤ now - s.startTime then stopTest s1 true else s1

/-- The events that can reach a running sampler: a clock tick (with the
clock reading and the snapshot the provider returns) or a manual stop. -/
inductive Ev where
  | tick (now : Nat) (info : Snapshot)
  | stop

/-- One event's effect on the app state. -/
def stepEv (s : AppState) : Ev → AppState
  | .tick now info => sampleTick s now info
  | .stop => stopTest s false

/-- Run a sequence of events. -/
def runTrace (s : AppState) : List Ev → AppState
  | [] => s
  | e :: es => runTrace (stepEv s e) es

/-- The clock readings of the tick events of a trace, in order. -/
def tickTimes : List Ev → List Nat
  | [] => []
  | .tick now _ :: es => now :: tickTimes es
  | .stop :: es => tickTimes es

/-! ### Claim C3: fallback parsing of concrete meminfo files -/

/-- Claim C3: in the fallback path, a memory-info file with
`MemTotal: 1000 kB` and `MemAvailable: 400 kB` yields
`totalMem_kb = 1000` and `availMem_kb = 400`, and a file with no
`MemAvailable` line but `MemFree: 250 kB` yields `availMem_kb = 250`. -/
theorem fallback_meminfo_values :
    (get_memory_snapshot
      { hasJnius := false, jniusInfo := none,
        meminfoFile := some ["MemTotal: 1000 kB", "MemAvailable: 400 kB"],
        statusFile := none } 0).totalMem_kb = 1000 ∧
    (get_memory_snapshot
      { hasJnius := false, jniusInfo := none,
        meminfoFile := some ["MemTotal: 1000 kB", "MemAvailable: 400 kB"],
        statusFile := none } 0).availMem_kb = 400 ∧
    (get_memory_snapshot
      { hasJnius := false, jniusInfo := none,
        meminfoFile := some ["MemTotal: 1000 kB", "MemFree: 250 kB"],
        statusFile := none } 0).availMem_kb = 250 := by
  decide

/-! ### Claim C4: behaviour of the parsers on malformed lines -/

/-- Counterexample to claim C4 as stated: in the file
`["garbage", "MemTotal: 1000 kB"]` the second line is well-formed (it
parses to `("MemTotal", 1000)` on its own), yet the malformed first line
makes `read_proc_meminfo` abort, so the returned mapping has no
`MemTotal` entry at all. -/
theorem meminfo_malformed_line_discards_rest :
    parseMemLine "MemTotal: 1000 kB" = some ("MemTotal", 1000) ∧
    parseMemLine "garbage" = none ∧
    (read_proc_meminfo
      { hasJnius := false, jniusInfo := none,
        meminfoFile := some ["garbage", "MemTotal: 1000 kB"],
        statusFile := none }).lookup "MemTotal" = none := by
  decide

theorem parseMemAll_stops_at_bad (pre : List String) :
    ∀ (acc : List (String × Int)),
      (∀ l ∈ pre, (parseMemLine l).isSome = true) →
      ∀ (bad : String) (post : List String), parseMemLine bad = none →
      parseMemAll (pre ++ bad :: post) acc = parseMemAll pre acc := by
  induction pre with
  | nil =>
    intro acc _ bad post hbad
    simp [parseMemAll, hbad]
  | cons l ls ih =>
    intro acc hpre bad post hbad
    obtain ⟨⟨k, v⟩, hkv⟩ :=
      Option.isSome_iff_exists.mp (hpre l (by simp))
    simp only [List.cons_append, parseMemAll, hkv]
    exact ih _ (fun x hx => hpre x (by simp [hx])) bad post hbad

theorem parseStatusAll_stops_at_bad (pre : List String) :
    ∀ (acc : List (String × Int)),
      (∀ l ∈ pre, statusLineWanted l = true → (parseMemLine l).isSome = true) →
      ∀ (bad : String) (post : List String),
        statusLineWanted bad = true → parseMemLine bad = none →
      parseStatusAll (pre ++ bad :: post) acc = parseStatusAll pre acc := by
  induction pre with
  | nil =>
    intro acc _ bad post hw hbad
    simp [parseStatusAll, hw, hbad]
  | cons l ls ih =>
    intro acc hpre bad post hw hbad
    by_cases hlw : statusLineWanted l = true
    · obtain ⟨⟨k, v⟩, hkv⟩ :=
        Option.isSome_iff_exists.mp (hpre l (by simp) hlw)
      simp only [List.cons_append, parseStatusAll, hlw, if_true, hkv]
      exact ih _ (fun x hx => hpre x (by simp [hx])) bad post hw hbad
    · simp only [List.cons_append, parseStatusAll, hlw, if_false]
      exact ih _ (fun x hx => hpre x (by simp [hx])) bad post hw hbad

theorem parseStatusAll_skips_unwanted (pre : List String) :
    ∀ (acc : List (String × Int)) (bad : String) (post : List String),
      statusLineWanted bad = false →
      parseStatusAll (pre ++ bad :: post) acc = parseStatusAll (pre ++ post) acc := by
  induction pre with
  | nil =>
    intro acc bad post hw
    simp [parseStatusAll, hw]
  | cons l ls ih =>
    intro acc bad post hw
    by_cases hlw : statusLineWanted l = true
    · cases hkv : parseMemLine l with
      | none => simp only [List.cons_append, parseStatusAll, hlw, if_true, hkv]
      | some kv =>
        obtain ⟨k, v⟩ := kv
        simp only [List.cons_append, parseStatusAll, hlw, if_true, hkv]
        exact ih _ bad post hw
    · simp only [List.cons_append, parseStatusAll, hlw, if_false]
      exact ih _ bad post hw

/-- Claim C4 (amended): a malformed line does not raise, but it is not
merely skipped either — in the memory-info parse it ends the parse,
retaining exactly the entries of the lines before it; in the per-process
status parse, lines failing the `VmRSS:`/`VmSize:`/`VmPeak:` filter are
skipped individually, while a matching line whose value fails to parse
ends the parse the same way. -/
theorem parse_stops_at_first_bad_line :
    (∀ (pre : List String) (bad : String) (post : List String),
      (∀ l ∈ pre, (parseMemLine l).isSome = true) → parseMemLine bad = none →
      parseMemAll (pre ++ bad :: post) [] = parseMemAll pre []) ∧
    (∀ (pre : List String) (bad : String) (post : List String),
      (∀ l ∈ pre, statusLineWanted l = true → (parseMemLine l).isSome = true) →
      statusLineWanted bad = true → parseMemLine bad = none →
      parseStatusAll (pre ++ bad :: post) [] = parseStatusAll pre []) ∧
    (∀ (pre : List String) (bad : String) (post : List String),
      statusLineWanted bad = false →
      parseStatusAll (pre ++ bad :: post) [] = parseStatusAll (pre ++ post) []) :=
  ⟨fun pre bad post h hbad => parseMemAll_stops_at_bad pre [] h bad post hbad,
   fun pre bad post h hw hbad => parseStatusAll_stops_at_bad pre [] h bad post hw hbad,
   fun pre bad post hw => parseStatusAll_skips_unwanted pre [] bad post hw⟩

-- Witness: the amended behaviour on a concrete file.
theorem parse_stops_at_first_bad_line_witness :
    parseMemAll (["MemTotal: 5 kB"] ++ "garbage" :: ["MemFree: 7 kB"]) [] =
      parseMemAll ["MemTotal: 5 kB"] [] :=
  parse_stops_at_first_bad_line.1 ["MemTotal: 5 kB"] "garbage" ["MemFree: 7 kB"]
    (by decide) (by decide)

/-! ### Claim C1: the snapshot is total and uses `-1`/`false` sentinels -/

/-- Claim C1: for every environment (privileged API present or not, `/proc`
files present, missing or malformed) and every pid, `get_memory_snapshot`
returns a record with all five memory fields — it is a total function, the
model of a call that never raises — and, whenever the fallback path is
taken, every field that cannot be determined is the sentinel `-1`
(`false` for the low-memory flag), never zero or an omitted key. -/
theorem snapshot_always_complete_with_sentinels (env : Env) (pid : Int) :
    (∃ t a l p d, get_memory_snapshot env pid =
      { totalMem_kb := t, availMem_kb := a, lowMemory := l,
        pss_kb := p, private_dirty_kb := d }) ∧
    ((env.hasJnius = false ∨ env.jniusInfo = none) →
      ((read_proc_meminfo env).lookup "MemTotal" = none →
        (get_memory_snapshot env pid).totalMem_kb = -1) ∧
      ((read_proc_meminfo env).lookup "MemAvailable" = none →
        (read_proc_meminfo env).lookup "MemFree" = none →
        (get_memory_snapshot env pid).availMem_kb = -1) ∧
      ((read_proc_status env pid).lookup "VmRSS" = none →
        (get_memory_snapshot env pid).pss_kb = -1) ∧
      (get_memory_snapshot env pid).private_dirty_kb = -1 ∧
      (get_memory_snapshot env pid).lowMemory = false) := by
  have hnone : ∀ (h : env.hasJnius = false ∨ env.jniusInfo = none),
      (if env.hasJnius then get_memory_info_jnius env pid else none) =
        (none : Option Snapshot) := by
    intro h
    cases h with
    | inl h => simp [h]
    | inr h => cases hb : env.hasJnius <;> simp [get_memory_info_jnius, h]
  refine ⟨⟨_, _, _, _, _, rfl⟩, fun h => ⟨?_, ?_, ?_, ?_, ?_⟩⟩
  · intro hmt
    simp [get_memory_snapshot, hnone h, hmt]
  · intro hma hmf
    simp [get_memory_snapshot, hnone h, hma, hmf]
  · intro hrss
    simp [get_memory_snapshot, hnone h, hrss]
  · simp [get_memory_snapshot, hnone h]
  · simp [get_memory_snapshot, hnone h]

-- Witness: the all-sentinel snapshot of an environment with no privileged
-- API and no `/proc` files.
theorem snapshot_always_complete_with_sentinels_witness :
    (get_memory_snapshot
      { hasJnius := false, jniusInfo := none, meminfoFile := none,
        statusFile := none } 0).totalMem_kb = -1 ∧
    (get_memory_snapshot
      { hasJnius := false, jniusInfo := none, meminfoFile := none,
        statusFile := none } 0).lowMemory = false :=
  ⟨((snapshot_always_complete_with_sentinels
      { hasJnius := false, jniusInfo := none, meminfoFile := none,
        statusFile := none } 0).2 (Or.inl rfl)).1 (by decide),
   ((snapshot_always_complete_with_sentinels
      { hasJnius := false, jniusInfo := none, meminfoFile := none,
        statusFile := none } 0).2 (Or.inl rfl)).2.2.2.2⟩

/-! ### Claim C2: exactly one CSV write per run -/

/-- The per-run write-count invariant: while sampling the writer has not
been triggered beyond the run's baseline `c`; once sampling has ended it
has been triggered at most once more. -/
def csvInv (c : Nat) (s : AppState) : Prop :=
  (s.sampling = true ∧ s.csvTriggers = c) ∨
  (s.sampling = false ∧ s.csvTriggers ≤ c + 1)

theorem stepEv_csvInv (c : Nat) (s : AppState) (e : Ev) (h : csvInv c s) :
    csvInv c (stepEv s e) := by
  cases e with
  | stop =>
    rcases h with ⟨hs, hc⟩ | ⟨hs, hc⟩
    · right
      simp [stepEv, stopTest, hs]
      omega
    · rcases (by simp [stepEv, stopTest, hs] : stepEv s .stop = s) with heq
      rw [heq]
      exact Or.inr ⟨hs, hc⟩
  | tick now info =>
    rcases h with ⟨hs, hc⟩ | ⟨hs, hc⟩
    · by_cases hd : s.duration ≤ now - s.startTime
      · right
        simp [stepEv, sampleTick, hs, hd, stopTest]
        omega
      · left
        simp [stepEv, sampleTick, hs, hd]
        exact hc
    · right
      simp [stepEv, sampleTick, hs]
      exact hc

theorem runTrace_csvInv (c : Nat) :
    ∀ (es : List Ev) (s : AppState), csvInv c s → csvInv c (runTrace s es)
  | [], _, h => h
  | e :: es, s, h => runTrace_csvInv c es _ (stepEv_csvInv c s e h)

/-- Claim C2: from a running state, a tick whose elapsed time reaches the
configured duration moves the sampler to `finished`, unschedules the tick,
sets the cancellation flag and triggers the CSV writer exactly once; a
manual stop moves it to `stopped`, unschedules the tick, sets the flag and
triggers the writer exactly once; and along any further event sequence the
writer is never triggered more than once for the run. -/
theorem run_triggers_exactly_one_csv_write (s : AppState) (now : Nat)
    (info : Snapshot) (es : List Ev) (h : s.sampling = true) :
    (s.duration ≤ now - s.startTime →
      (sampleTick s now info).status = RunStatus.finished ∧
      (sampleTick s now info).tickScheduled = false ∧
      (sampleTick s now info).stopEvent = true ∧
      (sampleTick s now info).csvTriggers = s.csvTriggers + 1) ∧
    ((stopTest s false).status = RunStatus.stopped ∧
      (stopTest s false).tickScheduled = false ∧
      (stopTest s false).stopEvent = true ∧
      (stopTest s false).csvTriggers = s.csvTriggers + 1) ∧
    (runTrace s es).csvTriggers ≤ s.csvTriggers + 1 := by
  refine ⟨fun hd => ?_, ?_, ?_⟩
  · simp [sampleTick, h, hd, stopTest]
  · simp [stopTest, h]
  · rcases runTrace_csvInv s.csvTriggers es s (Or.inl ⟨h, rfl⟩) with
      ⟨_, hc⟩ | ⟨_, hc⟩ <;> omega

-- Witness: a concrete running state, a duration-reaching tick and a trace.
theorem run_triggers_exactly_one_csv_write_witness :
    ({ sampling := true, samples := [], stopEvent := false, startTime := 0,
       pid := 42, duration := 2, tickScheduled := true, threadsStarted := 1,
       status := .running, csvTriggers := 0 } : AppState).sampling = true ∧
    (sampleTick
      { sampling := true, samples := [], stopEvent := false, startTime := 0,
        pid := 42, duration := 2, tickScheduled := true, threadsStarted := 1,
        status := .running, csvTriggers := 0 } 3
      ⟨1000, 400, false, -1, -1⟩).csvTriggers = 0 + 1 :=
  ⟨rfl,
   ((run_triggers_exactly_one_csv_write
      { sampling := true, samples := [], stopEvent := false, startTime := 0,
        pid := 42, duration := 2, tickScheduled := true, threadsStarted := 1,
        status := .running, csvTriggers := 0 } 3 ⟨1000, 400, false, -1, -1⟩
      [Ev.stop] rfl).1 (by decide)).2.2.2⟩

/-! ### Claim C8: starting while running is a no-op -/

/-- Claim C8: when the sampling flag is set, a second `start_test` call
returns the state unchanged — same sample sequence, cancellation flag,
start time and sampling flag, no additional thread started and no
additional tick scheduled. -/
theorem start_while_running_is_noop (s : AppState) (now : Nat)
    (h : s.sampling = true) : startTest s now = s := by
  simp [startTest, h]

-- Witness: a concrete running state is returned untouched.
theorem start_while_running_is_noop_witness :
    startTest
      { sampling := true, samples := [], stopEvent := false, startTime := 3,
        pid := 42, duration := 180, tickScheduled := true, threadsStarted := 1,
        status := .running, csvTriggers := 0 } 7 =
      { sampling := true, samples := [], stopEvent := false, startTime := 3,
        pid := 42, duration := 180, tickScheduled := true, threadsStarted := 1,
        status := .running, csvTriggers := 0 } :=
  start_while_running_is_noop _ 7 rfl

/-! ### Claim C10: saving with no samples writes nothing -/

/-- Claim C10: calling `save_csv` with an empty sample list performs no
filesystem write, raises no error, only sets the footer to
"No samples to save." and returns (the samples stay empty). -/
theorem save_csv_empty_no_write (st : SaveState) (env : FsEnv)
    (h : st.samples = []) :
    save_csv st env =
      ({ st with footer := "No samples to save." }, .noSamples, none) := by
  simp [save_csv, h]

-- Witness: the empty state, even with a writable path available.
theorem save_csv_empty_no_write_witness :
    save_csv { samples := [], footer := "Ready." }
        { path := "/tmp/out.csv", writeResult := .ok () } =
      ({ samples := [], footer := "No samples to save." },
        SaveResult.noSamples, none) :=
  save_csv_empty_no_write { samples := [], footer := "Ready." }
    { path := "/tmp/out.csv", writeResult := .ok () } rfl

/-! ### Claim C7: a failed write is surfaced and the samples are kept -/

/-- Claim C7: when the write raises, `save_csv` catches the exception at
its boundary and surfaces it as a displayable error result (the footer
text), writes no file, and leaves the in-memory sample list unchanged, so
a retry is possible. -/
theorem save_csv_failure_surfaced (st : SaveState) (env : FsEnv) (e : String)
    (hns : st.samples ≠ []) (he : env.writeResult = .error e) :
    save_csv st env =
      ({ st with footer := "Error saving CSV: " ++ e },
        .failed ("Error saving CSV: " ++ e), none) ∧
    (save_csv st env).1.samples = st.samples := by
  have hne : st.samples.isEmpty = false := by
    cases hl : st.samples with
    | nil => exact absurd hl hns
    | cons a l => rfl
  refine ⟨?_, ?_⟩ <;> simp [save_csv, hne, he]

-- Witness: one retained sample, an unwritable path.
theorem save_csv_failure_surfaced_witness :
    save_csv
        { samples := [⟨"2025-01-01T00:00:00", 42, -1, -1, 1000, 400, false⟩],
          footer := "Ready." }
        { path := "/tmp/out.csv", writeResult := .error "Permission denied" } =
      ({ samples := [⟨"2025-01-01T00:00:00", 42, -1, -1, 1000, 400, false⟩],
          footer := "Error saving CSV: Permission denied" },
        SaveResult.failed "Error saving CSV: Permission denied", none) :=
  (save_csv_failure_surfaced
    { samples := [⟨"2025-01-01T00:00:00", 42, -1, -1, 1000, 400, false⟩],
      footer := "Ready." }
    { path := "/tmp/out.csv", writeResult := .error "Permission denied" }
    "Permission denied" (by decide) rfl).1

/-! ### Rendering/parsing round-trip of the CSV field values -/

theorem str_data_append (a b : String) : (a ++ b).data = a.data ++ b.data := rfl

theorem mk_data (s : String) : String.mk s.data = s := rfl

theorem digitChar_props :
    ∀ d, d < 10 → (digitChar d).isDigit = true ∧ (digitChar d).toNat = 48 + d := by
  decide

theorem foldr_eq_ofDigits (L : List Nat) :
    L.foldr (fun d a => 10 * a + d) 0 = Nat.ofDigits 10 L := by
  induction L with
  | nil => simp [Nat.ofDigits]
  | cons d L ih =>
    rw [List.foldr_cons, ih, Nat.ofDigits_cons]
    omega

theorem natStr_all_digit (n : Nat) : ∀ c ∈ (natStr n).data, c.isDigit = true := by
  intro c hc
  unfold natStr at hc
  by_cases h : n = 0
  · rw [if_pos h] at hc
    have : ("0" : String).data = ['0'] := rfl
    rw [this] at hc
    rcases List.mem_singleton.mp hc with rfl
    decide
  · rw [if_neg h] at hc
    obtain ⟨d, hd, rfl⟩ := List.mem_map.mp hc
    have hlt : d < 10 :=
      Nat.digits_lt_base (by norm_num) (List.mem_reverse.mp hd)
    exact (digitChar_props d hlt).1

theorem natStr_ne_nil (n : Nat) : (natStr n).data ≠ [] := by
  unfold natStr
  by_cases h : n = 0
  · rw [if_pos h]; decide
  · rw [if_neg h]
    intro hcontra
    have : Nat.digits 10 n = [] := by
      have := List.map_eq_nil_iff.mp hcontra
      exact List.reverse_eq_nil_iff.mp this
    exact h ((Nat.digits_eq_nil_iff_eq_zero).mp this)

theorem parseNatCL_natStr (n : Nat) : parseNatCL (natStr n).data = some n := by
  by_cases h : n = 0
  · subst h; decide
  · have hdig : (natStr n).data.all Char.isDigit = true :=
      List.all_eq_true.mpr (fun c hc => natStr_all_digit n c hc)
    have hne : (natStr n).data.isEmpty = false := by
      cases hd : (natStr n).data with
      | nil => exact absurd hd (natStr_ne_nil n)
      | cons c cs => rfl
    unfold parseNatCL
    rw [hne, hdig]
    simp only [Bool.false_eq_true, if_false, if_true]
    congr 1
    conv_lhs =>
      rw [show (natStr n).data = (Nat.digits 10 n).reverse.map digitChar by
        unfold natStr; rw [if_neg h]]
    rw [List.foldl_map]
    rw [List.foldl_ext (g := fun (a : Nat) (d : Nat) => 10 * a + d) _ 0
      (fun a d hd => by
        show 10 * a + ((digitChar d).toNat - 48) = 10 * a + d
        rw [(digitChar_props d
          (Nat.digits_lt_base (by norm_num) (List.mem_reverse.mp hd))).2]
        omega)]
    rw [List.foldl_reverse]
    exact (foldr_eq_ofDigits (Nat.digits 10 n)).trans (Nat.ofDigits_digits 10 n)

theorem isDigit_ne_special (c : Char) (h : c.isDigit = true) :
    c ≠ ',' ∧ c ≠ '\r' ∧ c ≠ '\n' ∧ c ≠ '-' := by
  refine ⟨?_, ?_, ?_, ?_⟩ <;> (intro he; subst he; exact absurd h (by decide))

theorem parseIntStr_intStr (i : Int) : parseIntStr (intStr i) = some i := by
  by_cases h : i < 0
  · have hdata : (intStr i).data = '-' :: (natStr i.natAbs).data := by
      unfold intStr
      rw [if_pos h, str_data_append]
      rfl
    unfold parseIntStr
    rw [hdata]
    simp only [parseIntCL, if_pos rfl, parseNatCL_natStr]
    show some (-(i.natAbs : Int)) = some i
    congr 1
    omega
  · have hdata : (intStr i).data = (natStr i.natAbs).data := by
      unfold intStr
      rw [if_neg h]
    cases hd : (natStr i.natAbs).data with
    | nil => exact absurd hd (natStr_ne_nil i.natAbs)
    | cons c cs =>
      have hcdig : c.isDigit = true :=
        natStr_all_digit i.natAbs c (by rw [hd]; exact List.mem_cons_self c cs)
      unfold parseIntStr
      rw [hdata, hd]
      simp only [parseIntCL, if_neg (isDigit_ne_special c hcdig).2.2.2]
      rw [← hd, parseNatCL_natStr]
      show some ((i.natAbs : Int)) = some i
      congr 1
      omega

theorem parseBoolStr_boolStr (b : Bool) : parseBoolStr (boolStr b) = some b := by
  cases b <;> decide

/-! ### Splitting the written file back into lines and fields -/

theorem splitCh_eq_single (sep : Char) (l : List Char) (h : sep ∉ l) :
    splitCh sep l = [l] := by
  induction l with
  | nil => rfl
  | cons c cs ih =>
    have hc : ¬c = sep := fun hc => h (hc ▸ List.mem_cons_self c cs)
    have hcs : sep ∉ cs := fun hx => h (List.mem_cons_of_mem c hx)
    unfold splitCh
    rw [if_neg hc, ih hcs]

theorem splitCh_append (sep : Char) (a b : List Char) (h : sep ∉ a) :
    splitCh sep (a ++ sep :: b) = a :: splitCh sep b := by
  induction a with
  | nil =>
    show splitCh sep (sep :: b) = [] :: splitCh sep b
    conv_lhs => rw [splitCh]
    rw [if_pos rfl]
  | cons c cs ih =>
    have hc : ¬c = sep := fun hc => h (hc ▸ List.mem_cons_self c cs)
    have hcs : sep ∉ cs := fun hx => h (List.mem_cons_of_mem c hx)
    show splitCh sep (c :: (cs ++ sep :: b)) = (c :: cs) :: splitCh sep b
    conv_lhs => rw [splitCh]
    rw [if_neg hc, ih hcs]

theorem commaJoin_cons2_data (f g : String) (r : List String) :
    (commaJoin (f :: g :: r)).data = f.data ++ ',' :: (commaJoin (g :: r)).data := by
  show (f ++ "," ++ commaJoin (g :: r)).data = _
  rw [str_data_append, str_data_append]
  simp

theorem mem_commaJoin (c : Char) (fs : List String)
    (hc : c ∈ (commaJoin fs).data) : c = ',' ∨ ∃ f ∈ fs, c ∈ f.data := by
  induction fs with
  | nil => cases hc
  | cons f fs ih =>
    cases fs with
    | nil => exact Or.inr ⟨f, by simp, hc⟩
    | cons g r =>
      rw [commaJoin_cons2_data] at hc
      rcases List.mem_append.mp hc with hc | hc
      · exact Or.inr ⟨f, by simp, hc⟩
      · rcases List.mem_cons.mp hc with rfl | hc
        · exact Or.inl rfl
        · rcases ih hc with h | ⟨x, hx, hcx⟩
          · exact Or.inl h
          · exact Or.inr ⟨x, by simp [List.mem_cons.mp hx], hcx⟩

theorem splitCh_commaJoin (fs : List String) (hne : fs ≠ [])
    (h : ∀ f ∈ fs, ',' ∉ f.data) :
    splitCh ',' (commaJoin fs).data = fs.map String.data := by
  induction fs with
  | nil => exact absurd rfl hne
  | cons f fs ih =>
    cases fs with
    | nil =>
      show splitCh ',' f.data = [f.data]
      exact splitCh_eq_single ',' f.data (h f (by simp))
    | cons g r =>
      rw [commaJoin_cons2_data,
        splitCh_append ',' f.data _ (h f (by simp)),
        ih (by simp) (fun x hx => h x (List.mem_cons_of_mem f hx))]
      rfl

theorem writeLines_cons_data (l : String) (ls : List String) :
    (writeLines (l :: ls)).data =
      (l.data ++ ['\r']) ++ '\n' :: (writeLines ls).data := by
  show (l ++ "\r\n" ++ writeLines ls).data = _
  rw [str_data_append, str_data_append]
  simp

theorem splitCh_nl_writeLines (ls : List String)
    (h : ∀ l ∈ ls, '\n' ∉ l.data) :
    splitCh '\n' (writeLines ls).data =
      ls.map (fun l => l.data ++ ['\r']) ++ [[]] := by
  induction ls with
  | nil => rfl
  | cons l ls ih =>
    have h1 : '\n' ∉ l.data ++ ['\r'] := by
      intro hm
      rcases List.mem_append.mp hm with hm | hm
      · exact h l (by simp) hm
      · rcases List.mem_singleton.mp hm with hm
        cases hm
    rw [writeLines_cons_data, splitCh_append '\n' _ _ h1,
      ih (fun x hx => h x (List.mem_cons_of_mem l hx))]
    rfl

theorem getLast?_append_single {α : Type} (l : List α) (a : α) :
    (l ++ [a]).getLast? = some a := by
  simp

theorem dropLast_append_single {α : Type} (l : List α) (a : α) :
    (l ++ [a]).dropLast = l := by
  simp

theorem stripCR_append (d : List Char) : stripCR (d ++ ['\r']) = d := by
  unfold stripCR
  rw [getLast?_append_single, if_pos rfl, dropLast_append_single]

theorem stripTrailingEmpty_append (A : List (List Char)) :
    stripTrailingEmpty (A ++ [[]]) = A := by
  unfold stripTrailingEmpty
  rw [getLast?_append_single, if_pos rfl, dropLast_append_single]

theorem natStr_no_special (n : Nat) :
    ∀ c ∈ (natStr n).data, c ≠ ',' ∧ c ≠ '\r' ∧ c ≠ '\n' ∧ c ≠ '-' :=
  fun c hc => isDigit_ne_special c (natStr_all_digit n c hc)

theorem intStr_no_special (i : Int) :
    ∀ c ∈ (intStr i).data, c ≠ ',' ∧ c ≠ '\n' := by
  intro c hc
  unfold intStr at hc
  by_cases h : i < 0
  · rw [if_pos h, str_data_append] at hc
    rcases List.mem_append.mp hc with hc | hc
    · have hdash : ("-" : String).data = ['-'] := rfl
      rw [hdash] at hc
      rcases List.mem_singleton.mp hc with rfl
      exact ⟨by decide, by decide⟩
    · exact ⟨(natStr_no_special _ c hc).1, (natStr_no_special _ c hc).2.2.1⟩
  · rw [if_neg h] at hc
    exact ⟨(natStr_no_special _ c hc).1, (natStr_no_special _ c hc).2.2.1⟩

theorem boolStr_no_special (b : Bool) :
    ∀ c ∈ (boolStr b).data, c ≠ ',' ∧ c ≠ '\n' := by
  cases b <;> decide

theorem sampleFields_no_special (s : Sample) (hts : tsOk s.timestamp) :
    ∀ f ∈ sampleFields s, ',' ∉ f.data ∧ '\n' ∉ f.data := by
  obtain ⟨h1, h2, h3⟩ := hts
  intro f hf
  simp only [sampleFields, List.mem_cons, List.not_mem_nil, or_false] at hf
  rcases hf with rfl | rfl | rfl | rfl | rfl | rfl | rfl
  · exact ⟨h1, h3⟩
  · exact ⟨fun hc => (intStr_no_special _ _ hc).1 rfl,
      fun hc => (intStr_no_special _ _ hc).2 rfl⟩
  · exact ⟨fun hc => (intStr_no_special _ _ hc).1 rfl,
      fun hc => (intStr_no_special _ _ hc).2 rfl⟩
  · exact ⟨fun hc => (intStr_no_special _ _ hc).1 rfl,
      fun hc => (intStr_no_special _ _ hc).2 rfl⟩
  · exact ⟨fun hc => (intStr_no_special _ _ hc).1 rfl,
      fun hc => (intStr_no_special _ _ hc).2 rfl⟩
  · exact ⟨fun hc => (intStr_no_special _ _ hc).1 rfl,
      fun hc => (intStr_no_special _ _ hc).2 rfl⟩
  · exact ⟨fun hc => (boolStr_no_special _ _ hc).1 rfl,
      fun hc => (boolStr_no_special _ _ hc).2 rfl⟩

theorem csvRow_no_nl (s : Sample) (hts : tsOk s.timestamp) :
    '\n' ∉ (csvRow s).data := by
  intro hm
  rcases mem_commaJoin '\n' (sampleFields s) hm with he | ⟨f, hf, hcf⟩
  · exact absurd he (by decide)
  · exact (sampleFields_no_special s hts f hf).2 hcf

/-- Recovering the field strings from an unquoted comma-joined record. -/
theorem row_fields (fs : List String) (hne : fs ≠ [])
    (hnc : ∀ f ∈ fs, ',' ∉ f.data) :
    (splitCh ',' (commaJoin fs).data).map String.mk = fs := by
  rw [splitCh_commaJoin fs hne hnc, List.map_map]
  have hcomp : String.mk ∘ String.data = id := funext fun s => mk_data s
  rw [hcomp, List.map_id]

/-- Re-parsing the written file recovers the header row and the field
strings of each sample, in order. -/
theorem parseCsvRows_csvText (samples : List Sample)
    (h : ∀ s ∈ samples, tsOk s.timestamp) :
    parseCsvRows (csvText samples) = fieldnames :: samples.map sampleFields := by
  have hlines : ∀ l ∈ csvHeader :: samples.map csvRow, '\n' ∉ l.data := by
    intro l hl
    rcases List.mem_cons.mp hl with rfl | hl
    · decide
    · obtain ⟨s, hs, rfl⟩ := List.mem_map.mp hl
      exact csvRow_no_nl s (h s hs)
  unfold parseCsvRows csvText
  rw [splitCh_nl_writeLines _ hlines, stripTrailingEmpty_append]
  simp only [List.map_cons, List.map_map, Function.comp, stripCR_append,
    csvHeader, csvRow]
  exact congrArg₂ List.cons
    (row_fields fieldnames (by decide) (by decide))
    (List.map_congr_left (fun s hs => by
      show (splitCh ','
        (stripCR ((commaJoin (sampleFields s)).data ++ ['\r']))).map String.mk =
        sampleFields s
      rw [stripCR_append]
      exact row_fields (sampleFields s) (by simp [sampleFields])
        (fun f hf => (sampleFields_no_special s (h s hs) f hf).1)))

theorem parseSampleRow_sampleFields (s : Sample) :
    parseSampleRow (sampleFields s) = some s := by
  simp [parseSampleRow, sampleFields, parseIntStr_intStr, parseBoolStr_boolStr]

theorem parseRows_map_sampleFields (samples : List Sample) :
    parseRows (samples.map sampleFields) = some samples := by
  induction samples with
  | nil => rfl
  | cons s ss ih =>
    show parseRows (sampleFields s :: ss.map sampleFields) = some (s :: ss)
    conv_lhs => rw [parseRows]
    rw [parseSampleRow_sampleFields, ih]

/-! ### Claim C5: the CSV file's header row and row layout -/

/-- Counterexample to claim C5 as stated: the header row the writer
produces is `timestamp,pid,pss_kb,private_dirty_kb,totalMem_kb,availMem_kb,lowMemory`
(the `fieldnames` of `save_csv`), not the claimed
`timestamp,pid,pss_kb,private_dirty_kb,total_mem_kb,avail_mem_kb,low_memory`. -/
theorem csv_header_not_snake_case :
    csvHeader =
      "timestamp,pid,pss_kb,private_dirty_kb,totalMem_kb,availMem_kb,lowMemory" ∧
    csvHeader ≠
      "timestamp,pid,pss_kb,private_dirty_kb,total_mem_kb,avail_mem_kb,low_memory" := by
  decide

/-- Claim C5 (amended): the CSV file begins with exactly the header row
`timestamp,pid,pss_kb,private_dirty_kb,totalMem_kb,availMem_kb,lowMemory`,
followed by one data row per sample with the fields in that fixed order
(re-parsing the text yields the header fields and then each sample's
rendered fields, in order). -/
theorem csv_begins_with_header_then_rows (samples : List Sample)
    (h : ∀ s ∈ samples, tsOk s.timestamp) :
    (∃ rest, csvText samples =
      "timestamp,pid,pss_kb,private_dirty_kb,totalMem_kb,availMem_kb,lowMemory"
        ++ "\r\n" ++ rest) ∧
    parseCsvRows (csvText samples) = fieldnames :: samples.map sampleFields := by
  constructor
  · refine ⟨writeLines (samples.map csvRow), ?_⟩
    show writeLines (csvHeader :: samples.map csvRow) = _
    conv_lhs => rw [writeLines]
    rw [show csvHeader =
      "timestamp,pid,pss_kb,private_dirty_kb,totalMem_kb,availMem_kb,lowMemory"
      from by decide]
  · exact parseCsvRows_csvText samples h

-- Witness: the empty run still begins with the header row.
theorem csv_begins_with_header_then_rows_witness :
    (∃ rest, csvText [] =
      "timestamp,pid,pss_kb,private_dirty_kb,totalMem_kb,availMem_kb,lowMemory"
        ++ "\r\n" ++ rest) ∧
    parseCsvRows (csvText []) = fieldnames :: List.map sampleFields [] :=
  csv_begins_with_header_then_rows [] (by decide)

/-! ### Claim C6: the CSV round trip preserves every field -/

/-- Claim C6: writing any sample sequence and re-parsing the resulting
file yields exactly the original samples — same number of rows, same
order, every field value equal, with the sentinel `-1` preserved exactly
(the hypothesis only rules out CSV metacharacters inside the timestamp
string, which `isoformat()` never produces). -/
theorem csv_round_trip (samples : List Sample)
    (h : ∀ s ∈ samples, tsOk s.timestamp) :
    parseCsvSamples (csvText samples) = some samples := by
  unfold parseCsvSamples
  rw [parseCsvRows_csvText samples h]
  show (if fieldnames = fieldnames then parseRows (samples.map sampleFields)
    else none) = some samples
  rw [if_pos rfl]
  exact parseRows_map_sampleFields samples

-- Witness: a two-sample run with sentinel values survives the round trip.
theorem csv_round_trip_witness :
    (∀ s ∈ [(⟨"2025-01-01T00:00:00.000000", 42, -1, -1, 1000, 400, false⟩ : Sample),
        ⟨"2025-01-01T00:00:01.000000", 42, 512, -1, 1000, 399, true⟩],
      tsOk s.timestamp) ∧
    parseCsvSamples (csvText
      [⟨"2025-01-01T00:00:00.000000", 42, -1, -1, 1000, 400, false⟩,
       ⟨"2025-01-01T00:00:01.000000", 42, 512, -1, 1000, 399, true⟩]) =
      some [⟨"2025-01-01T00:00:00.000000", 42, -1, -1, 1000, 400, false⟩,
        ⟨"2025-01-01T00:00:01.000000", 42, 512, -1, 1000, 399, true⟩] :=
  ⟨by decide, csv_round_trip _ (by decide)⟩

/-! ### Claim C9: constant pid and monotone timestamps within a run -/

theorem stopTest_samples (s : AppState) (f : Bool) :
    (stopTest s f).samples = s.samples := by
  unfold stopTest; split <;> rfl

theorem stopTest_pid (s : AppState) (f : Bool) : (stopTest s f).pid = s.pid := by
  unfold stopTest; split <;> rfl

theorem sampleTick_pid (s : AppState) (now : Nat) (info : Snapshot) :
    (sampleTick s now info).pid = s.pid := by
  unfold sampleTick
  split
  · rfl
  · split
    · rw [stopTest_pid]
    · rfl

theorem sampleTick_samples_running (s : AppState) (now : Nat) (info : Snapshot)
    (h : s.sampling = true) :
    (sampleTick s now info).samples =
      s.samples ++ [mkTickSample now s.pid info] := by
  unfold sampleTick
  rw [h]
  simp only [Bool.not_true, Bool.false_eq_true, if_false]
  split
  · rw [stopTest_samples]
  · rfl

theorem sampleTick_samples_idle (s : AppState) (now : Nat) (info : Snapshot)
    (h : s.sampling = false) :
    (sampleTick s now info).samples = s.samples := by
  unfold sampleTick
  rw [h]
  rfl

theorem stepEv_pid (s : AppState) (e : Ev) : (stepEv s e).pid = s.pid := by
  cases e with
  | tick now info => exact sampleTick_pid s now info
  | stop => exact stopTest_pid s false

/-- Run invariant for C9: pid-constant samples, time-sorted samples, and
every already-collected sample no later than every remaining tick. -/
theorem c9_trace_inv (p : Int) :
    ∀ (es : List Ev) (s : AppState), s.pid = p →
      List.Pairwise (· ≤ ·) (tickTimes es) →
      (∀ x ∈ s.samples, x.pid = p) →
      List.Pairwise (fun a b => a.time ≤ b.time) s.samples →
      (∀ x ∈ s.samples, ∀ t ∈ tickTimes es, x.time ≤ t) →
      (∀ x ∈ (runTrace s es).samples, x.pid = p) ∧
      List.Pairwise (fun a b => a.time ≤ b.time) (runTrace s es).samples := by
  intro es
  induction es with
  | nil =>
    intro s _ _ hpid hmono _
    exact ⟨hpid, hmono⟩
  | cons e es ih =>
    intro s hp hts hpid hmono hbound
    cases e with
    | stop =>
      refine ih (stepEv s .stop) ?_ hts ?_ ?_ ?_
      · rw [stepEv_pid]; exact hp
      · show ∀ x ∈ (stopTest s false).samples, x.pid = p
        rw [stopTest_samples]; exact hpid
      · show List.Pairwise _ (stopTest s false).samples
        rw [stopTest_samples]; exact hmono
      · show ∀ x ∈ (stopTest s false).samples, _
        rw [stopTest_samples]; exact hbound
    | tick now info =>
      have hts' : List.Pairwise (· ≤ ·) (tickTimes es) :=
        (List.pairwise_cons.mp hts).2
      have hnow : ∀ t ∈ tickTimes es, now ≤ t :=
        (List.pairwise_cons.mp hts).1
      cases hs : s.sampling with
      | false =>
        refine ih (stepEv s (.tick now info)) ?_ hts' ?_ ?_ ?_
        · rw [stepEv_pid]; exact hp
        · show ∀ x ∈ (sampleTick s now info).samples, x.pid = p
          rw [sampleTick_samples_idle s now info hs]; exact hpid
        · show List.Pairwise _ (sampleTick s now info).samples
          rw [sampleTick_samples_idle s now info hs]; exact hmono
        · show ∀ x ∈ (sampleTick s now info).samples, _
          rw [sampleTick_samples_idle s now info hs]
          exact fun x hx t ht => hbound x hx t (by simp [tickTimes, ht])
      | true =>
        have hsamp := sampleTick_samples_running s now info hs
        refine ih (stepEv s (.tick now info)) ?_ hts' ?_ ?_ ?_
        · rw [stepEv_pid]; exact hp
        · show ∀ x ∈ (sampleTick s now info).samples, x.pid = p
          rw [hsamp]
          intro x hx
          rcases List.mem_append.mp hx with hx | hx
          · exact hpid x hx
          · rcases List.mem_singleton.mp hx with rfl
            exact hp
        · show List.Pairwise _ (sampleTick s now info).samples
          rw [hsamp]
          refine List.pairwise_append.mpr ⟨hmono, List.pairwise_singleton _ _, ?_⟩
          intro a ha b hb
          rcases List.mem_singleton.mp hb with rfl
          exact hbound a ha now (by simp [tickTimes])
        · show ∀ x ∈ (sampleTick s now info).samples, _
          rw [hsamp]
          intro x hx t ht
          rcases List.mem_append.mp hx with hx | hx
          · exact hbound x hx t (by simp [tickTimes, ht])
          · rcases List.mem_singleton.mp hx with rfl
            exact hnow t ht

/-- Claim C9: starting a run and feeding it any event sequence whose tick
instants are non-decreasing yields a sample sequence in which every sample
carries the pid captured at construction and the capture instants are
non-decreasing in append order. -/
theorem run_samples_pid_constant_times_monotone (s0 : AppState) (now0 : Nat)
    (es : List Ev) (h0 : s0.sampling = false)
    (hts : List.Pairwise (· ≤ ·) (tickTimes es)) :
    (∀ x ∈ (runTrace (startTest s0 now0) es).samples, x.pid = s0.pid) ∧
    List.Pairwise (fun a b => a.time ≤ b.time)
      (runTrace (startTest s0 now0) es).samples := by
  have hss : (startTest s0 now0).samples = [] := by
    simp [startTest, h0]
  have hsp : (startTest s0 now0).pid = s0.pid := by
    simp [startTest, h0]
  refine c9_trace_inv s0.pid es (startTest s0 now0) hsp hts ?_ ?_ ?_
  · rw [hss]; intro x hx; cases hx
  · rw [hss]; exact List.Pairwise.nil
  · rw [hss]; intro x hx; cases hx

-- Witness: an idle state started and run through two ticks and a stop.
theorem run_samples_pid_constant_times_monotone_witness :
    (∀ x ∈ (runTrace
      (startTest
        { sampling := false, samples := [], stopEvent := false, startTime := 0,
          pid := 42, duration := 180, tickScheduled := false,
          threadsStarted := 0, status := .idle, csvTriggers := 0 } 0)
      [Ev.tick 1 ⟨1000, 400, false, -1, -1⟩,
       Ev.tick 2 ⟨1000, 300, false, -1, -1⟩, Ev.stop]).samples,
      x.pid = 42) ∧
    List.Pairwise (fun a b => a.time ≤ b.time)
      (runTrace
        (startTest
          { sampling := false, samples := [], stopEvent := false,
            startTime := 0, pid := 42, duration := 180,
            tickScheduled := false, threadsStarted := 0, status := .idle,
            csvTriggers := 0 } 0)
        [Ev.tick 1 ⟨1000, 400, false, -1, -1⟩,
         Ev.tick 2 ⟨1000, 300, false, -1, -1⟩, Ev.stop]).samples :=
  run_samples_pid_constant_times_monotone
    { sampling := false, samples := [], stopEvent := false, startTime := 0,
      pid := 42, duration := 180, tickScheduled := false, threadsStarted := 0,
      status := .idle, csvTriggers := 0 } 0
    [Ev.tick 1 ⟨1000, 400, false, -1, -1⟩,
     Ev.tick 2 ⟨1000, 300, false, -1, -1⟩, Ev.stop] rfl (by decide)

end MemApp
